import Mathlib

/-!
# Todo bot: task store and recurrence rules

A shallow embedding of `main.go`: the task store (`todosData`, `nextID`, the file
`todos.json`), the command handlers that change it, and the rule that decides whether a
repeating task is due.

Conventions of the embedding.

* The package-level variables `todosData` and `nextID` and the contents of `todos.json`
  are the three fields of `State`; a handler is a function from a state to the next state
  and the reply it sends.
* `time.Now()` is an argument `now` of every handler that reads the clock.
* Go's `int` is 64 bits wide: `nextID++` wraps (`wrap64`).
* `strings.ToLower`, `fmt.Sscanf(_, "%d", _)` and `time.Parse("02.01.2006", _)` are
  library code; they are the fields of `Lib`, and every theorem holds for every `Lib`.
* `float64` arithmetic is IEEE 754 binary64 with round-to-nearest-even (`roundF64`).
* A run-time panic (integer division by zero) is the result `none`.
-/

namespace TelegramBot

/-! ## Strings -/

/-- The predicate `unicode.IsSpace`: the code points with the White_Space property. -/
def isSpace (c : Char) : Bool :=
  let n := c.toNat
  (0x09 ≤ n && n ≤ 0x0D) || n = 0x20 || n = 0x85 || n = 0xA0 || n = 0x1680 ||
  (0x2000 ≤ n && n ≤ 0x200A) || n = 0x2028 || n = 0x2029 || n = 0x202F || n = 0x205F ||
  n = 0x3000

/-- The scan of `strings.Fields`: `cur` holds the characters of the field being read, last
character first. -/
def fieldsAux : List Char → List Char → List (List Char)
  | [], cur => if cur = [] then [] else [cur.reverse]
  | c :: cs, cur =>
    if isSpace c then
      (if cur = [] then fieldsAux cs [] else cur.reverse :: fieldsAux cs [])
    else fieldsAux cs (c :: cur)

/-- The function `strings.Fields`: the maximal runs of non-space characters, in order. -/
def Fields (s : String) : List String :=
  (fieldsAux s.data []).map String.mk

/-- The function `strings.Join`. -/
def Join : List String → String → String
  | [], _ => ""
  | [a], _ => a
  | a :: b :: rest, sep => a ++ sep ++ Join (b :: rest) sep

/-! ## Machine integers and time -/

/-- Reduction of an integer to the range of Go's 64-bit `int`. -/
def wrap64 (n : Int) : Int := (n + 2 ^ 63) % 2 ^ 64 - 2 ^ 63

/-- A `time.Time`: the instant in nanoseconds since the Unix epoch, and the offset in
seconds east of UTC of the zone the value is displayed in.  The monotonic clock reading a
value of `time.Now()` carries is taken to agree with the wall clock. -/
structure Time where
  ns : Int
  offset : Int
deriving DecidableEq, Repr

/-- The constant `time.Hour`, in nanoseconds. -/
def Hour : Int := 3600000000000

/-- Nanoseconds in 24 hours. -/
def dayNs : Int := 24 * Hour

/-- The least `time.Duration`. -/
def minDuration : Int := -2 ^ 63

/-- The greatest `time.Duration`. -/
def maxDuration : Int := 2 ^ 63 - 1

/-- The method `Time.Sub`: the difference of the two instants, saturated to the range of
`time.Duration`. -/
def Time.Sub (t u : Time) : Int :=
  let d := t.ns - u.ns
  if d < minDuration then minDuration else if maxDuration < d then maxDuration else d

/-- Number of the calendar day of `t` in its own zone, counted from 1970-01-01. -/
def Time.civilDay (t : Time) : Int := (t.ns / 1000000000 + t.offset) / 86400

/-- The call `t.Format("02.01.2006")`.  The layout prints the day, the month and the year of
the calendar day of `t`; two such strings are equal exactly when the two day numbers are, so
the string is represented by the day number. -/
def Time.Format (t : Time) : Int := t.civilDay

/-- The method `Time.Weekday`, `0` for Sunday to `6` for Saturday (1970-01-01 was a
Thursday). -/
def Time.Weekday (t : Time) : Nat := ((t.civilDay + 4) % 7).toNat

/-- The method `Weekday.String`. -/
def weekdayString : Nat → String
  | 0 => "Sunday"
  | 1 => "Monday"
  | 2 => "Tuesday"
  | 3 => "Wednesday"
  | 4 => "Thursday"
  | 5 => "Friday"
  | 6 => "Saturday"
  | n => "%!Weekday(" ++ toString n ++ ")"

/-! ## Data model -/

/-- The struct `Todo`. -/
structure Todo where
  ID : Int
  Text : String
  Date : Time
  Repeat : String
  Interval : Int
  Days : List String
deriving DecidableEq, Repr

/-- The struct `UserTodos`. -/
structure UserTodos where
  UserID : Int
  Todos : List Todo
deriving DecidableEq, Repr

/-- The map type of `todosData`. -/
abbrev TodosData := Int → Option UserTodos

/-- The state of the process: the variables `todosData` and `nextID`, and the contents of
`todos.json` (`none` when the file does not exist).  Serialisation is taken to be lossless
and the write to succeed. -/
structure State where
  todosData : TodosData
  nextID : Int
  file : Option TodosData

/-- The library functions the handlers call. -/
structure Lib where
  /-- The function `strings.ToLower`. -/
  ToLower : String → String
  /-- The call `fmt.Sscanf(s, "%d", &n)`: `some n` when it succeeds. -/
  Sscanf : String → Option Int
  /-- The call `time.Parse("02.01.2006", s)`: `some t` when it succeeds. -/
  Parse : String → Option Time

/-- What a handler sends back.  The layout of the composed messages is not represented:
`added` is the confirmation of `addTodo`, `today` the list of `showTodayTodos` with one
block per listed task, in the order the blocks are written. -/
inductive Reply
  | text (msg : String)
  | added (todo : Todo)
  | today (items : List Todo)
deriving DecidableEq, Repr

/-- Reply of `deleteTodo` and `updateTodoRepeat` for a user without an entry. -/
def msgNoTasks : String := "❌ You don't have any tasks"

/-- Reply of `deleteTodo` and `updateTodoRepeat` when no task has the id. -/
def msgNotFound : String := "❌ Task with specified ID not found"

/-- Reply to an id that does not scan. -/
def msgInvalidID : String := "❌ Invalid task ID"

/-- Reply of the list commands for a user without tasks. -/
def msgEmpty : String := "📝 Your todo list is empty"

/-- The assignment `todosData[userID] = v`. -/
def setUser (m : TodosData) (userID : Int) (v : UserTodos) : TodosData :=
  fun u => if u = userID then some v else m u

/-- The function `saveTodos` (lines 345 to 356): `todos.json` receives the whole map. -/
def saveTodos (s : State) : State := { s with file := some s.todosData }

/-- The state at process start: the declared initial values of `todosData` and `nextID`
(lines 28 and 29), then the function `loadTodos` (lines 358 to 372), which fills `todosData`
from `todos.json` when the file exists and assigns nothing to `nextID`. -/
def loadTodos (file : Option TodosData) : State :=
  { todosData := file.getD (fun _ => none), nextID := 1, file := file }

/-- The loops `for i, todo := range userTodos.Todos { if todo.ID == id ...`: the first index
whose task has the id. -/
def findID (id : Int) : List Todo → Option (Nat × Todo)
  | [] => none
  | todo :: rest =>
    if todo.ID = id then some (0, todo)
    else (findID id rest).map (fun r => (r.1 + 1, r.2))

/-! ## Handlers -/

/-- The second half of `addTodo`: the new task takes the value of `nextID`, the counter is
incremented, the task is appended to the list of the user (created when the user has none)
and the map is saved. -/
def appendTodo (s : State) (userID : Int) (date : Time) (todoText : String) : State × Reply :=
  let todo : Todo :=
    { ID := s.nextID, Text := todoText, Date := date, Repeat := "none", Interval := 0,
      Days := [] }
  let userTodos : UserTodos :=
    match s.todosData userID with
    | some userTodos => userTodos
    | none => { UserID := userID, Todos := [] }
  (saveTodos { s with
      nextID := wrap64 (s.nextID + 1)
      todosData := setUser s.todosData userID
        { userTodos with Todos := userTodos.Todos ++ [todo] } },
    Reply.added todo)

/-- The function `addTodo` (`main.go`, lines 145 to 186); `text` is the message and `now` the
value of `time.Now()`.  The first pattern is `len(parts) >= 2`, and `rest.length < 1` is
`len(parts) < 3`. -/
def addTodo (L : Lib) (now : Time) (s : State) (userID : Int) (text : String) :
    State × Reply :=
  match Fields text with
  | _ :: p1 :: rest =>
    match L.Parse p1 with
    | some date =>
      if rest.length < 1 then (s, Reply.text "❌ Please provide task text after the date")
      else appendTodo s userID date (Join rest " ")
    | none => appendTodo s userID now (Join (p1 :: rest) " ")
  | _ =>
    (s, Reply.text
      "❌ Usage: add [date?] [text]\nExamples:\n• add Buy milk\n• add 25.12.2023 Buy gifts")

/-- The function `deleteTodo` (lines 188 to 214).  The pattern is `len(parts) == 2`; the new
list is `append(Todos[:i], Todos[i+1:]...)`. -/
def deleteTodo (L : Lib) (s : State) (userID : Int) (text : String) : State × Reply :=
  match Fields text with
  | [_, p1] =>
    match L.Sscanf p1 with
    | none => (s, Reply.text msgInvalidID)
    | some id =>
      match s.todosData userID with
      | none => (s, Reply.text msgNoTasks)
      | some userTodos =>
        match findID id userTodos.Todos with
        | some (i, _) =>
          (saveTodos { s with
              todosData := setUser s.todosData userID
                { userTodos with
                  Todos := userTodos.Todos.take i ++ userTodos.Todos.drop (i + 1) } },
            Reply.text "✅ Task deleted")
        | none => (s, Reply.text msgNotFound)
  | _ => (s, Reply.text "❌ Usage: delete [ID]\nExample: delete 1")

/-- The function `clearTodos` (lines 216 to 222). -/
def clearTodos (s : State) (userID : Int) : State × Reply :=
  match s.todosData userID with
  | some userTodos =>
    (saveTodos { s with todosData := setUser s.todosData userID { userTodos with Todos := [] } },
      Reply.text "✅ All tasks deleted")
  | none => (s, Reply.text "✅ All tasks deleted")

/-- The function `getRepeatText` (lines 312 to 323). -/
def getRepeatText (todo : Todo) : String :=
  if todo.Repeat = "daily" then "daily"
  else if todo.Repeat = "weekly" then "on " ++ Join todo.Days ", "
  else if todo.Repeat = "custom" then "every " ++ toString todo.Interval ++ " days"
  else "no repeat"

/-- The function `updateTodoRepeat` (lines 291 to 310): the three assignments to
`userTodos.Todos[i]` for the first `i` whose task has the id. -/
def updateTodoRepeat (s : State) (userID id : Int) (repeatType : String) (interval : Int)
    (days : List String) : State × Reply :=
  match s.todosData userID with
  | none => (s, Reply.text msgNoTasks)
  | some userTodos =>
    match findID id userTodos.Todos with
    | some (i, todo) =>
      let todo : Todo := { todo with Repeat := repeatType, Interval := interval, Days := days }
      (saveTodos { s with
          todosData := setUser s.todosData userID
            { userTodos with Todos := userTodos.Todos.set i todo } },
        Reply.text ("✅ Task is now repeating: " ++ getRepeatText todo))
    | none => (s, Reply.text msgNotFound)

/-- The function `repeatDaily` (lines 224 to 239); `userID` is `c.Sender().ID` and `text` is
`c.Text()`. -/
def repeatDaily (L : Lib) (s : State) (userID : Int) (text : String) : State × Reply :=
  match Fields text with
  | [_, p1] =>
    match L.Sscanf p1 with
    | none => (s, Reply.text msgInvalidID)
    | some id => updateTodoRepeat s userID id "daily" 0 []
  | _ => (s, Reply.text "❌ Usage: /repeat_daily [ID]")

/-- The keys of the map `validDays`. -/
def validDays : List String :=
  ["monday", "tuesday", "wednesday", "thursday", "friday", "saturday", "sunday"]

/-- The function `repeatWeekly` (lines 241 to 268).  The pattern is `len(parts) >= 3`, and
`d :: ds` is `parts[2:]`. -/
def repeatWeekly (L : Lib) (s : State) (userID : Int) (text : String) : State × Reply :=
  match Fields text with
  | _ :: p1 :: d :: ds =>
    match L.Sscanf p1 with
    | none => (s, Reply.text msgInvalidID)
    | some id =>
      if (d :: ds).all (fun day => decide (L.ToLower day ∈ validDays)) then
        updateTodoRepeat s userID id "weekly" 0 (d :: ds)
      else
        (s, Reply.text ("❌ Invalid day of week. Use: monday, tuesday, wednesday, thursday, " ++
          "friday, saturday, sunday"))
  | _ =>
    (s, Reply.text ("❌ Usage: /repeat_weekly [ID] [week days]\n" ++
      "Example: /repeat_weekly 1 monday wednesday friday"))

/-- The function `repeatCustom` (lines 270 to 289).  The pattern is `len(parts) == 3`. -/
def repeatCustom (L : Lib) (s : State) (userID : Int) (text : String) : State × Reply :=
  match Fields text with
  | [_, p1, p2] =>
    match L.Sscanf p1 with
    | none => (s, Reply.text msgInvalidID)
    | some id =>
      match L.Sscanf p2 with
      | none => (s, Reply.text "❌ Interval must be a positive number")
      | some interval =>
        if interval ≤ 0 then (s, Reply.text "❌ Interval must be a positive number")
        else updateTodoRepeat s userID id "custom" interval []
  | _ =>
    (s, Reply.text "❌ Usage: /repeat_custom [ID] [interval in days]\nExample: /repeat_custom 1 5")

/-! ## Binary64 arithmetic -/

/-- Rounding of a rational to the nearest integer, a tie going to the even one. -/
def roundHalfEven (m : ℚ) : ℤ :=
  let f := ⌊m⌋
  if m - f < 1 / 2 then f
  else if 1 / 2 < m - f then f + 1
  else if f % 2 = 0 then f else f + 1

/-- Rounding of a positive rational to 53 significant bits: with `2 ^ e ≤ x < 2 ^ (e + 1)`
the result is the multiple of `2 ^ (e - 52)` nearest to `x`. -/
def roundPos (x : ℚ) : ℚ :=
  let u : ℚ := 2 ^ (Int.log 2 x - 52)
  roundHalfEven (x / u) * u

/-- Rounding of the exact result of a `float64` operation to the nearest `float64`, ties to
even.  The exponent range is not represented: the values this program computes are zero or
have a magnitude between `2 ^ (-47)` and `2 ^ 22`, far inside the range of normal numbers. -/
def roundF64 (x : ℚ) : ℚ :=
  if x = 0 then 0 else if 0 < x then roundPos x else -roundPos (-x)

/-- The rationals that are `float64` values, the exponent range left aside. -/
def IsF64 (x : ℚ) : Prop := ∃ m k : ℤ, |m| < 2 ^ 53 ∧ x = m * 2 ^ k

/-- The method `Duration.Hours`: `float64(hour) + float64(nsec)/(60*60*1e9)` with
`hour := d / Hour` and `nsec := d % Hour`. -/
def Hours (d : Int) : ℚ :=
  let hour := Int.tdiv d Hour
  let nsec := Int.tmod d Hour
  roundF64 (roundF64 hour + roundF64 (roundF64 nsec / 3600000000000))

/-- The conversion `int(f)` of a `float64`: the fraction is discarded. -/
def toInt (f : ℚ) : Int := if 0 ≤ f then ⌊f⌋ else ⌈f⌉

/-- The expression `int(d.Hours() / 24)`. -/
def daysOf (d : Int) : Int := toInt (roundF64 (Hours d / 24))

/-! ## Listing -/

/-- The function `isRepeatingTaskDueToday` (lines 325 to 343); `now` is the value of
`time.Now()`.  In the branch for "custom" the conjunction
`daysDiff >= 0 && daysDiff%todo.Interval == 0` evaluates the remainder only when
`daysDiff >= 0`, and the remainder with divisor zero panics. -/
def isRepeatingTaskDueToday (L : Lib) (now : Time) (todo : Todo) : Option Bool :=
  let todayWeekday := L.ToLower (weekdayString now.Weekday)
  if todo.Repeat = "daily" then some true
  else if todo.Repeat = "weekly" then
    some (todo.Days.any (fun day => decide (L.ToLower day = todayWeekday)))
  else if todo.Repeat = "custom" then
    let daysDiff := daysOf (now.Sub todo.Date)
    if 0 ≤ daysDiff then
      (if todo.Interval = 0 then none else some (decide (Int.tmod daysDiff todo.Interval = 0)))
    else some false
  else some false

/-- The loop of `showTodayTodos`: the tasks for which a block is written.  The handler reads
the clock again for every task; all readings are taken to be the instant `now`. -/
def dueLoop (L : Lib) (now : Time) : List Todo → Option (List Todo)
  | [] => some []
  | todo :: rest =>
    let cond : Option Bool :=
      if todo.Date.Format = now.Format then some true else isRepeatingTaskDueToday L now todo
    match cond with
    | none => none
    | some b => (dueLoop L now rest).map (fun items => if b then todo :: items else items)

/-- The function `showTodayTodos` (lines 88 to 120). -/
def showTodayTodos (L : Lib) (now : Time) (s : State) (userID : Int) : Option Reply :=
  match s.todosData userID with
  | none => some (Reply.text msgEmpty)
  | some userTodos =>
    if userTodos.Todos.length = 0 then some (Reply.text msgEmpty)
    else
      match dueLoop L now userTodos.Todos with
      | none => none
      | some items =>
        if items = [] then some (Reply.text "📝 No tasks for today")
        else some (Reply.today items)

/-! ## Command sequences -/

/-- One message handled by the process: the handler it reaches, with `c.Sender().ID`, the
text the handler receives (`strings.ToLower(c.Text())` for `addTodo` and `deleteTodo`,
`c.Text()` for the three repeat handlers) and, for `addTodo`, the clock reading. -/
inductive Cmd
  | add (userID : Int) (text : String) (now : Time)
  | delete (userID : Int) (text : String)
  | clear (userID : Int)
  | repeatDaily (userID : Int) (text : String)
  | repeatWeekly (userID : Int) (text : String)
  | repeatCustom (userID : Int) (text : String)

/-- The effect of one message. -/
def step (L : Lib) (s : State) : Cmd → State × Reply
  | Cmd.add userID text now => addTodo L now s userID text
  | Cmd.delete userID text => deleteTodo L s userID text
  | Cmd.clear userID => clearTodos s userID
  | Cmd.repeatDaily userID text => repeatDaily L s userID text
  | Cmd.repeatWeekly userID text => repeatWeekly L s userID text
  | Cmd.repeatCustom userID text => repeatCustom L s userID text

/-- The effect of a sequence of messages: the final state and the replies in order. -/
def run (L : Lib) (s : State) : List Cmd → State × List Reply
  | [] => (s, [])
  | c :: cs =>
    let r := step L s c
    let rs := run L r.1 cs
    (rs.1, r.2 :: rs.2)

/-- The id a reply of `addTodo` reports as assigned. -/
def assignedID : Reply → Option Int
  | Reply.added todo => some todo.ID
  | _ => none

/-- The ids assigned during a sequence of messages, in assignment order. -/
def assignedIDs (L : Lib) (s : State) (cmds : List Cmd) : List Int :=
  (run L s cmds).2.filterMap assignedID

/-! ## The claim of calendar days -/

/-- The state `s'` is the state `s` with `todo` appended to the list of `userID`: the list of
the user is the old one (empty, with the user's id, when the user had no entry) followed by
`todo`, the entries of the other users are the same, and the counter has advanced by one. -/
def AppendedTo (s s' : State) (userID : Int) (todo : Todo) : Prop :=
  (∀ ut, s.todosData userID = some ut →
    s'.todosData userID = some { ut with Todos := ut.Todos ++ [todo] }) ∧
  (s.todosData userID = none →
    s'.todosData userID = some { UserID := userID, Todos := [todo] }) ∧
  (∀ u, u ≠ userID → s'.todosData u = s.todosData u) ∧
  s'.nextID = wrap64 (s.nextID + 1)

/-- Well-formedness of the recurrence fields of a task, as the data model states it. -/
def WellFormed (L : Lib) (todo : Todo) : Prop :=
  (todo.Repeat = "custom" → 1 ≤ todo.Interval) ∧
  (todo.Repeat = "weekly" →
    todo.Days ≠ [] ∧ ∀ day ∈ todo.Days, L.ToLower day ∈ validDays)

instance (L : Lib) (todo : Todo) : Decidable (WellFormed L todo) := by
  unfold WellFormed; infer_instance

/-- Every task of every user is well-formed. -/
def StateWF (L : Lib) (s : State) : Prop :=
  ∀ u ut t, s.todosData u = some ut → t ∈ ut.Todos → WellFormed L t

/-! ## An instance of the library for evaluation

The three functions below agree with the Go library on ASCII input; they serve to evaluate
the handlers on concrete messages. -/

/-- The function `strings.ToLower` on ASCII text. -/
def asciiLower (s : String) : String := String.mk (s.data.map Char.toLower)

/-- Value of a run of decimal digits read after the value `acc`; `none` when the run is
empty. -/
def scanDigits : List Char → Option Nat → Option Nat
  | [], acc => acc
  | c :: cs, acc =>
    if c.isDigit then scanDigits cs (some (acc.getD 0 * 10 + (c.toNat - 48))) else acc

/-- The call `fmt.Sscanf(s, "%d", &n)` on ASCII text: an optional sign, then at least one
decimal digit; what follows the digits is not read; the value has to fit 64 bits. -/
def scanInt (s : String) : Option Int :=
  let signed : Int × List Char :=
    match s.data with
    | '-' :: cs => (-1, cs)
    | '+' :: cs => (1, cs)
    | cs => (1, cs)
  match scanDigits signed.2 none with
  | none => none
  | some n =>
    let v := signed.1 * (n : Int)
    if -2 ^ 63 ≤ v ∧ v < 2 ^ 63 then some v else none

/-- Days in a month of the Gregorian calendar. -/
def daysIn (month year : Nat) : Nat :=
  if month = 2 then
    (if year % 4 = 0 ∧ (year % 100 ≠ 0 ∨ year % 400 = 0) then 29 else 28)
  else if month = 4 ∨ month = 6 ∨ month = 9 ∨ month = 11 then 30 else 31

/-- Number of the day `year`-`month`-`day`, counted from 1970-01-01. -/
def daysFromCivil (year month day : Nat) : Int :=
  let y : Int := if month ≤ 2 then (year : Int) - 1 else year
  let era : Int := y / 400
  let yoe : Int := y - era * 400
  let mp : Int := if month > 2 then (month : Int) - 3 else (month : Int) + 9
  let doy : Int := (153 * mp + 2) / 5 + (day : Int) - 1
  let doe : Int := yoe * 365 + yoe / 4 - yoe / 100 + doy
  era * 146097 + doe - 719468

/-- The call `time.Parse("02.01.2006", s)`: two digits, a point, two digits, a point, four
digits, naming a day that exists; the result is midnight UTC of that day. -/
def parseDate (s : String) : Option Time :=
  match s.data with
  | [d1, d2, '.', m1, m2, '.', y1, y2, y3, y4] =>
    if d1.isDigit ∧ d2.isDigit ∧ m1.isDigit ∧ m2.isDigit ∧ y1.isDigit ∧ y2.isDigit ∧
        y3.isDigit ∧ y4.isDigit then
      let day := (d1.toNat - 48) * 10 + (d2.toNat - 48)
      let month := (m1.toNat - 48) * 10 + (m2.toNat - 48)
      let year :=
        (y1.toNat - 48) * 1000 + (y2.toNat - 48) * 100 + (y3.toNat - 48) * 10 + (y4.toNat - 48)
      if 1 ≤ month ∧ month ≤ 12 ∧ 1 ≤ day ∧ day ≤ daysIn month year then
        some { ns := daysFromCivil year month day * dayNs, offset := 0 }
      else none
    else none
  | _ => none

/-- The library instance used for evaluation. -/
def stdLib : Lib := { ToLower := asciiLower, Sscanf := scanInt, Parse := parseDate }

/-- A state with two tasks of user 7, built by two `add` messages. -/
def exampleState : State :=
  (run stdLib (loadTodos none)
    [Cmd.add 7 "add buy milk" ⟨1709290800000000000, 0⟩,
     Cmd.add 7 "add 04.03.2024 call bob" ⟨1709290800000000000, 0⟩]).1


/-! ## Binary64 rounding: bounds -/

theorem roundHalfEven_le {m : ℚ} {k : ℤ} (h : m ≤ k) : roundHalfEven m ≤ k := by
  have hf : ⌊m⌋ ≤ k := Int.floor_le_iff.mpr (by linarith)  
  unfold roundHalfEven
  have hfl : (⌊m⌋ : ℚ) ≤ m := Int.floor_le m
  by_cases h1 : m - ⌊m⌋ < 1 / 2
  · simp only [h1, if_true]; exact hf
  · have hlt : (⌊m⌋ : ℚ) < k := by linarith
    have hlt2 : ⌊m⌋ < k := by exact_mod_cast hlt
    simp only [h1, if_false]
    split_ifs <;> omega

theorem le_roundHalfEven {m : ℚ} {k : ℤ} (h : (k : ℚ) ≤ m) : k ≤ roundHalfEven m := by
  have hf : k ≤ ⌊m⌋ := Int.le_floor.mpr h
  unfold roundHalfEven
  simp only
  split_ifs <;> omega

theorem two_pow_53_mul (e : ℤ) : (((2 : ℤ) ^ 53 : ℤ) : ℚ) * 2 ^ (e - 52) = 2 ^ (e + 1) := by
  have h53 : (((2 : ℤ) ^ 53 : ℤ) : ℚ) = (2 : ℚ) ^ (53 : ℤ) := by norm_num
  rw [h53, ← zpow_add₀ (by norm_num : (2 : ℚ) ≠ 0)]
  congr 1; ring

theorem two_pow_52_mul (e : ℤ) : (((2 : ℤ) ^ 52 : ℤ) : ℚ) * 2 ^ (e - 52) = 2 ^ e := by
  have h52 : (((2 : ℤ) ^ 52 : ℤ) : ℚ) = (2 : ℚ) ^ (52 : ℤ) := by norm_num
  rw [h52, ← zpow_add₀ (by norm_num : (2 : ℚ) ≠ 0)]
  congr 1; ring

/-- A positive `float64` value at or above `2 ^ e` is a whole multiple of `2 ^ (e - 52)`. -/
theorem IsF64.multiple {b : ℚ} {e : ℤ} (hb : IsF64 b) (he : (2 : ℚ) ^ e ≤ b) :
    ∃ n : ℤ, b = n * 2 ^ (e - 52) := by
  obtain ⟨m, k, hm, rfl⟩ := hb
  have h2 : (0 : ℚ) < 2 ^ e := by positivity
  have hk : (0 : ℚ) < 2 ^ k := by positivity
  have hmpos : (0 : ℚ) < m := by
    by_contra hcon
    push_neg at hcon
    have : (m : ℚ) * 2 ^ k ≤ 0 := mul_nonpos_of_nonpos_of_nonneg hcon hk.le
    linarith
  have hm' : (m : ℚ) < 2 ^ (53 : ℤ) := by
    have : m < 2 ^ 53 := lt_of_le_of_lt (le_abs_self m) hm
    have : (m : ℚ) < ((2 ^ 53 : ℤ) : ℚ) := by exact_mod_cast this
    have h53 : (((2 : ℤ) ^ 53 : ℤ) : ℚ) = (2 : ℚ) ^ (53 : ℤ) := by norm_num
    rwa [h53] at this
  have hke : e - 52 ≤ k := by
    by_contra hcon
    push_neg at hcon
    have hk53 : k ≤ e - 53 := by omega
    have h1 : (2 : ℚ) ^ k ≤ 2 ^ (e - 53) := zpow_le_zpow_right₀ (by norm_num) hk53
    have h3 : (m : ℚ) * 2 ^ k < 2 ^ (53 : ℤ) * 2 ^ (e - 53) := by
      calc (m : ℚ) * 2 ^ k ≤ m * 2 ^ (e - 53) := by
            exact mul_le_mul_of_nonneg_left h1 hmpos.le
        _ < 2 ^ (53 : ℤ) * 2 ^ (e - 53) := by
            exact mul_lt_mul_of_pos_right hm' (by positivity)
    have h4 : (2 : ℚ) ^ (53 : ℤ) * 2 ^ (e - 53) = 2 ^ e := by
      rw [← zpow_add₀ (by norm_num : (2 : ℚ) ≠ 0)]; congr 1; ring
    linarith
  obtain ⟨j, hj⟩ := Int.eq_ofNat_of_zero_le (by omega : 0 ≤ k - (e - 52))
  refine ⟨m * 2 ^ j, ?_⟩
  have hk' : k = (j : ℤ) + (e - 52) := by omega
  rw [hk', zpow_add₀ (by norm_num : (2 : ℚ) ≠ 0)]
  push_cast
  rw [zpow_natCast]
  ring

theorem roundPos_bounds {x : ℚ} (hx : 0 < x) :
    (2 : ℚ) ^ Int.log 2 x ≤ x ∧ x < 2 ^ (Int.log 2 x + 1) :=
  ⟨Int.zpow_log_le_self (by norm_num) hx, Int.lt_zpow_succ_log_self (by norm_num) x⟩

theorem roundPos_le {x b : ℚ} (hx : 0 < x) (hxb : x ≤ b) (hb : IsF64 b) : roundPos x ≤ b := by
  obtain ⟨hlo, hhi⟩ := roundPos_bounds hx
  set e := Int.log 2 x with he
  have hu : (0 : ℚ) < 2 ^ (e - 52) := by positivity
  unfold roundPos
  simp only [← he]
  by_cases hbe : (2 : ℚ) ^ (e + 1) ≤ b
  · have h1 : x / 2 ^ (e - 52) ≤ ((2 ^ 53 : ℤ) : ℚ) := by
      rw [div_le_iff₀ hu]
      rw [two_pow_53_mul]; exact hhi.le
    have h2 := roundHalfEven_le h1
    have h3 : ((roundHalfEven (x / 2 ^ (e - 52)) : ℤ) : ℚ) ≤ ((2 ^ 53 : ℤ) : ℚ) := by
      exact_mod_cast h2
    calc ((roundHalfEven (x / 2 ^ (e - 52)) : ℤ) : ℚ) * 2 ^ (e - 52)
        ≤ ((2 ^ 53 : ℤ) : ℚ) * 2 ^ (e - 52) := mul_le_mul_of_nonneg_right h3 hu.le
      _ = 2 ^ (e + 1) := two_pow_53_mul e
      _ ≤ b := hbe
  · obtain ⟨n, hn⟩ := hb.multiple (le_trans hlo hxb)
    have h1 : x / 2 ^ (e - 52) ≤ (n : ℚ) := by
      rw [div_le_iff₀ hu, ← hn]; exact hxb
    have h2 := roundHalfEven_le h1
    have h3 : ((roundHalfEven (x / 2 ^ (e - 52)) : ℤ) : ℚ) ≤ (n : ℚ) := by exact_mod_cast h2
    rw [hn]
    exact mul_le_mul_of_nonneg_right h3 hu.le

theorem le_roundPos {x a : ℚ} (hx : 0 < x) (hax : a ≤ x) (ha : IsF64 a) : a ≤ roundPos x := by
  obtain ⟨hlo, hhi⟩ := roundPos_bounds hx
  set e := Int.log 2 x with he
  have hu : (0 : ℚ) < 2 ^ (e - 52) := by positivity
  unfold roundPos
  simp only [← he]
  by_cases hae : a ≤ (2 : ℚ) ^ e
  · have h1 : ((2 ^ 52 : ℤ) : ℚ) ≤ x / 2 ^ (e - 52) := by
      rw [le_div_iff₀ hu]
      rw [two_pow_52_mul]; exact hlo
    have h2 := le_roundHalfEven h1
    have h3 : ((2 ^ 52 : ℤ) : ℚ) ≤ ((roundHalfEven (x / 2 ^ (e - 52)) : ℤ) : ℚ) := by
      exact_mod_cast h2
    calc a ≤ 2 ^ e := hae
      _ = ((2 ^ 52 : ℤ) : ℚ) * 2 ^ (e - 52) := (two_pow_52_mul e).symm
      _ ≤ _ := mul_le_mul_of_nonneg_right h3 hu.le
  · push_neg at hae
    obtain ⟨n, hn⟩ := ha.multiple hae.le
    have h1 : (n : ℚ) ≤ x / 2 ^ (e - 52) := by
      rw [le_div_iff₀ hu, ← hn]; exact hax
    have h2 := le_roundHalfEven h1
    have h3 : (n : ℚ) ≤ ((roundHalfEven (x / 2 ^ (e - 52)) : ℤ) : ℚ) := by exact_mod_cast h2
    rw [hn]
    exact mul_le_mul_of_nonneg_right h3 hu.le

theorem IsF64.neg {x : ℚ} (h : IsF64 x) : IsF64 (-x) := by
  obtain ⟨m, k, hm, rfl⟩ := h
  exact ⟨-m, k, by simpa using hm, by push_cast; ring⟩

theorem isF64_zero : IsF64 0 := ⟨0, 0, by norm_num, by norm_num⟩

theorem roundPos_nonneg {x : ℚ} (hx : 0 < x) : 0 ≤ roundPos x :=
  le_roundPos hx hx.le isF64_zero

theorem roundF64_le {x b : ℚ} (hxb : x ≤ b) (hb : IsF64 b) : roundF64 x ≤ b := by
  unfold roundF64
  split_ifs with h0 hpos
  · rw [h0] at hxb; exact hxb
  · exact roundPos_le hpos hxb hb
  · have hneg : 0 < -x := by
      rcases lt_trichotomy x 0 with h | h | h
      · linarith
      · exact absurd h h0
      · exact absurd h hpos
    by_cases hb0 : 0 ≤ b
    · have := roundPos_nonneg hneg; linarith
    · push_neg at hb0
      have := le_roundPos hneg (by linarith : -b ≤ -x) hb.neg
      linarith

theorem le_roundF64 {x a : ℚ} (hax : a ≤ x) (ha : IsF64 a) : a ≤ roundF64 x := by
  unfold roundF64
  split_ifs with h0 hpos
  · rw [h0] at hax; exact hax
  · exact le_roundPos hpos hax ha
  · have hneg : 0 < -x := by
      rcases lt_trichotomy x 0 with h | h | h
      · linarith
      · exact absurd h h0
      · exact absurd h hpos
    have := roundPos_le hneg (by linarith : -x ≤ -a) ha.neg
    linarith

theorem roundF64_eq {x : ℚ} (h : IsF64 x) : roundF64 x = x :=
  le_antisymm (roundF64_le le_rfl h) (le_roundF64 le_rfl h)

theorem isF64_int (n : ℤ) (h : |n| < 2 ^ 53) : IsF64 (n : ℚ) :=
  ⟨n, 0, h, by simp⟩

theorem isF64_div_pow (c : ℤ) (g : ℕ) (h : |c| < 2 ^ 53) : IsF64 ((c : ℚ) / 2 ^ g) :=
  ⟨c, -(g : ℤ), h, by rw [zpow_neg, zpow_natCast]; rfl⟩

/-- Bounds on `float64(hour) + float64(nsec)/(60*60*1e9)` for a duration that is not
negative. -/
theorem hours_nonneg_bounds (H N : ℤ) (hH0 : 0 ≤ H) (hH : H < 2 ^ 22) (hN0 : 0 ≤ N)
    (hN : N < 3600000000000) :
    (H : ℚ) ≤ roundF64 (roundF64 H + roundF64 (roundF64 N / 3600000000000)) ∧
    roundF64 (roundF64 H + roundF64 (roundF64 N / 3600000000000)) ≤ H + 1 ∧
    (N + 3353 ≤ 3600000000000 →
      roundF64 (roundF64 H + roundF64 (roundF64 N / 3600000000000)) ≤ H + 1 - 1 / 2 ^ 30) := by
  have hHf : IsF64 (H : ℚ) := isF64_int H (by rw [abs_of_nonneg hH0]; omega)
  have hH1f : IsF64 ((H : ℚ) + 1) := by
    have := isF64_int (H + 1) (by rw [abs_of_nonneg (by omega)]; omega)
    push_cast at this; exact this
  have hNf : IsF64 (N : ℚ) := isF64_int N (by rw [abs_of_nonneg hN0]; omega)
  rw [roundF64_eq hHf, roundF64_eq hNf]
  have hNq0 : (0 : ℚ) ≤ N := by exact_mod_cast hN0
  have hNq : (N : ℚ) ≤ 3600000000000 := by exact_mod_cast hN.le
  have hfr0 : (0 : ℚ) ≤ roundF64 ((N : ℚ) / 3600000000000) :=
    le_roundF64 (by positivity) isF64_zero
  have hfr1 : roundF64 ((N : ℚ) / 3600000000000) ≤ 1 := by
    apply roundF64_le
    · rw [div_le_one (by norm_num)]; exact hNq
    · have := isF64_int 1 (by norm_num); simpa using this
  refine ⟨le_roundF64 (by linarith) hHf, roundF64_le (by linarith) hH1f, ?_⟩
  intro htol
  have hone : IsF64 ((1 : ℚ) - 1 / 2 ^ 30) := by
    have := isF64_div_pow (2 ^ 30 - 1) 30 (by norm_num)
    have e : (((2 ^ 30 - 1 : ℤ) : ℚ) / 2 ^ 30) = 1 - 1 / 2 ^ 30 := by norm_num
    rwa [e] at this
  have hfr : roundF64 ((N : ℚ) / 3600000000000) ≤ 1 - 1 / 2 ^ 30 := by
    apply roundF64_le _ hone
    rw [div_le_iff₀ (by norm_num)]
    have : (N : ℚ) ≤ 3600000000000 - 3353 := by
      have : N ≤ 3600000000000 - 3353 := by omega
      exact_mod_cast this
    norm_num at this ⊢
    linarith
  have hbf : IsF64 ((H : ℚ) + 1 - 1 / 2 ^ 30) := by
    have := isF64_div_pow ((H + 1) * 2 ^ 30 - 1) 30
      (by rw [abs_of_nonneg (by omega)]; omega)
    have e : ((((H + 1) * 2 ^ 30 - 1 : ℤ) : ℚ) / 2 ^ 30) = (H : ℚ) + 1 - 1 / 2 ^ 30 := by
      push_cast; field_simp; left; norm_num
    rwa [e] at this
  exact roundF64_le (by linarith) hbf

/-- Bounds on `float64(hour) + float64(nsec)/(60*60*1e9)` for a duration that is not
positive, in terms of the absolute values of `hour` and `nsec`. -/
theorem hours_nonpos_bounds (H N : ℤ) (hH0 : 0 ≤ H) (hH : H < 2 ^ 22) (hN0 : 0 ≤ N)
    (hN : N < 3600000000000) :
    roundF64 (roundF64 ((-H : ℤ) : ℚ) + roundF64 (roundF64 ((-N : ℤ) : ℚ) / 3600000000000))
      ≤ -(H : ℚ) ∧
    (H < 24 →
      -(H : ℚ) - 1 + 1 / 2 ^ 42 ≤
        roundF64 (roundF64 ((-H : ℤ) : ℚ) +
          roundF64 (roundF64 ((-N : ℤ) : ℚ) / 3600000000000))) := by
  have hHf : IsF64 ((-H : ℤ) : ℚ) := isF64_int (-H) (by rw [abs_neg, abs_of_nonneg hH0]; omega)
  have hNf : IsF64 ((-N : ℤ) : ℚ) := isF64_int (-N) (by rw [abs_neg, abs_of_nonneg hN0]; omega)
  rw [roundF64_eq hHf, roundF64_eq hNf]
  have hNq0 : (0 : ℚ) ≤ N := by exact_mod_cast hN0
  have hfr0 : roundF64 (((-N : ℤ) : ℚ) / 3600000000000) ≤ 0 := by
    apply roundF64_le _ isF64_zero
    push_cast
    apply div_nonpos_of_nonpos_of_nonneg <;> linarith
  have hHf' : IsF64 (-(H : ℚ)) := by simpa using hHf
  push_cast at hfr0 ⊢
  refine ⟨roundF64_le (by linarith) hHf', ?_⟩
  intro h24
  have hone : IsF64 (-(1 : ℚ) + 1 / 2 ^ 42) := by
    have := isF64_div_pow (-2 ^ 42 + 1) 42 (by norm_num)
    have e : (((-2 ^ 42 + 1 : ℤ) : ℚ) / 2 ^ 42) = -1 + 1 / 2 ^ 42 := by norm_num
    rwa [e] at this
  have hfr : -(1 : ℚ) + 1 / 2 ^ 42 ≤ roundF64 (-(N : ℚ) / 3600000000000) := by
    apply le_roundF64 _ hone
    rw [le_div_iff₀ (by norm_num)]
    have : -(3600000000000 : ℚ) + 1 ≤ -(N : ℚ) := by
      have : -3600000000000 + 1 ≤ -N := by omega
      exact_mod_cast this
    norm_num at this ⊢
    linarith
  have hbf : IsF64 (-(H : ℚ) - 1 + 1 / 2 ^ 42) := by
    have := isF64_div_pow ((-H - 1) * 2 ^ 42 + 1) 42
      (by rw [abs_of_nonpos (by omega)]; omega)
    have e : ((((-H - 1) * 2 ^ 42 + 1 : ℤ) : ℚ) / 2 ^ 42) = -(H : ℚ) - 1 + 1 / 2 ^ 42 := by
      push_cast; field_simp; left; norm_num
    rwa [e] at this
  exact le_roundF64 (by linarith) hbf

theorem toInt_nonneg {v : ℚ} (hv : 0 ≤ v) : 0 ≤ toInt v := by
  unfold toInt
  rw [if_pos hv]
  exact Int.floor_nonneg.mpr hv

theorem toInt_eq_zero {v : ℚ} (h1 : -1 < v) (h2 : v ≤ 0) : toInt v = 0 := by
  unfold toInt
  split_ifs with h
  · have : v = 0 := le_antisymm h2 h
    simp [this]
  · exact Int.ceil_eq_iff.mpr ⟨by push_cast; linarith, by push_cast; linarith⟩

theorem toInt_neg {v : ℚ} (h : v ≤ -1) : toInt v < 0 := by
  unfold toInt
  rw [if_neg (by linarith)]
  have : ⌈v⌉ ≤ -1 := Int.ceil_le.mpr (by push_cast; linarith)
  omega

theorem hours_of_nonneg (d : ℤ) (hd : 0 ≤ d) :
    Hours d = roundF64 (roundF64 ((d / 3600000000000 : ℤ) : ℚ) +
      roundF64 (roundF64 ((d % 3600000000000 : ℤ) : ℚ) / 3600000000000)) := by
  unfold Hours Hour
  simp only
  rw [Int.tdiv_eq_ediv hd (by norm_num), Int.tmod_eq_emod hd (by norm_num)]

theorem hours_of_nonpos (d : ℤ) (hd : d ≤ 0) :
    Hours d = roundF64 (roundF64 ((-(-d / 3600000000000) : ℤ) : ℚ) +
      roundF64 (roundF64 ((-(-d % 3600000000000) : ℤ) : ℚ) / 3600000000000)) := by
  have h1 : Int.tdiv d 3600000000000 = -(-d / 3600000000000) := by
    have := Int.neg_tdiv (-d) 3600000000000
    rw [neg_neg] at this
    rw [this, Int.tdiv_eq_ediv (by omega) (by norm_num)]
  have h2 : Int.tmod d 3600000000000 = -(-d % 3600000000000) := by
    have := Int.tdiv_add_tmod d 3600000000000
    rw [h1] at this
    omega
  unfold Hours Hour
  simp only
  rw [h1, h2]

/-- A duration that is not negative never counts a negative number of days, and it counts at
least the whole days it contains. -/
theorem daysOf_ge (d : ℤ) (hd : 0 ≤ d) (hmax : d ≤ maxDuration) : d / dayNs ≤ daysOf d := by
  have hmax' : d ≤ 2 ^ 63 - 1 := hmax
  obtain ⟨hlo, -, -⟩ := hours_nonneg_bounds (d / 3600000000000) (d % 3600000000000)
    (by omega) (by omega) (by omega) (by omega)
  rw [← hours_of_nonneg d hd] at hlo
  have hq0 : 0 ≤ d / 86400000000000 := by omega
  have hq : 24 * (d / 86400000000000) ≤ d / 3600000000000 := by omega
  have hqf : IsF64 ((d / 86400000000000 : ℤ) : ℚ) :=
    isF64_int _ (by rw [abs_of_nonneg hq0]; omega)
  have hqq : (24 : ℚ) * ((d / 86400000000000 : ℤ) : ℚ) ≤ ((d / 3600000000000 : ℤ) : ℚ) := by
    exact_mod_cast hq
  have hv : ((d / 86400000000000 : ℤ) : ℚ) ≤ roundF64 (Hours d / 24) := by
    apply le_roundF64 _ hqf
    rw [le_div_iff₀ (by norm_num)]
    linarith
  have hv0 : (0 : ℚ) ≤ roundF64 (Hours d / 24) := le_trans (by exact_mod_cast hq0) hv
  unfold daysOf toInt dayNs Hour
  rw [if_pos hv0]
  norm_num
  exact Int.le_floor.mpr hv

/-- A duration between minus one day (excluded) and zero counts zero days. -/
theorem daysOf_zero (d : ℤ) (hd : d ≤ 0) (hlow : -dayNs < d) : daysOf d = 0 := by
  have hlow' : -86400000000000 < d := by unfold dayNs Hour at hlow; norm_num at hlow; exact hlow
  obtain ⟨hhi, hlo⟩ := hours_nonpos_bounds (-d / 3600000000000) (-d % 3600000000000)
    (by omega) (by omega) (by omega) (by omega)
  have hlo := hlo (by omega)
  rw [← hours_of_nonpos d hd] at hhi hlo
  have hH0 : (0 : ℚ) ≤ ((-d / 3600000000000 : ℤ) : ℚ) := by
    have : 0 ≤ -d / 3600000000000 := by omega
    exact_mod_cast this
  have hH23 : ((-d / 3600000000000 : ℤ) : ℚ) ≤ 23 := by
    have : -d / 3600000000000 ≤ 23 := by omega
    exact_mod_cast this
  have hbf : IsF64 (-(1 : ℚ) + 1 / 2 ^ 47) := by
    have := isF64_div_pow (-2 ^ 47 + 1) 47 (by norm_num)
    have e : (((-2 ^ 47 + 1 : ℤ) : ℚ) / 2 ^ 47) = -1 + 1 / 2 ^ 47 := by norm_num
    rwa [e] at this
  have hv : -(1 : ℚ) + 1 / 2 ^ 47 ≤ roundF64 (Hours d / 24) := by
    apply le_roundF64 _ hbf
    rw [le_div_iff₀ (by norm_num)]
    norm_num at hlo ⊢
    linarith
  have hv' : roundF64 (Hours d / 24) ≤ 0 := by
    apply roundF64_le _ isF64_zero
    apply div_nonpos_of_nonpos_of_nonneg _ (by norm_num)
    linarith
  have hpos : (0 : ℚ) < 1 / 2 ^ 47 := by norm_num
  exact toInt_eq_zero (by linarith) hv'

/-- A duration of minus one day or less counts a negative number of days. -/
theorem daysOf_neg (d : ℤ) (hmin : minDuration ≤ d) (hd : d ≤ -dayNs) : daysOf d < 0 := by
  have hd' : d ≤ -86400000000000 := by unfold dayNs Hour at hd; norm_num at hd; exact hd
  have hmin' : -2 ^ 63 ≤ d := hmin
  obtain ⟨hhi, -⟩ := hours_nonpos_bounds (-d / 3600000000000) (-d % 3600000000000)
    (by omega) (by omega) (by omega) (by omega)
  rw [← hours_of_nonpos d (by omega)] at hhi
  have hH24 : (24 : ℚ) ≤ ((-d / 3600000000000 : ℤ) : ℚ) := by
    have : 24 ≤ -d / 3600000000000 := by omega
    exact_mod_cast this
  have hbf : IsF64 (-(1 : ℚ)) := by
    have := isF64_int (-1) (by norm_num); simpa using this
  have hv' : roundF64 (Hours d / 24) ≤ -1 := by
    apply roundF64_le _ hbf
    rw [div_le_iff₀ (by norm_num)]
    linarith
  exact toInt_neg hv'


theorem findID_some {id : Int} {l : List Todo} {i : Nat} {t : Todo}
    (h : findID id l = some (i, t)) :
    ∃ pre post, l = pre ++ t :: post ∧ pre.length = i ∧ t.ID = id ∧ ∀ x ∈ pre, x.ID ≠ id := by
  induction l generalizing i with
  | nil => simp [findID] at h
  | cons a rest ih =>
    unfold findID at h
    by_cases ha : a.ID = id
    · rw [if_pos ha] at h
      simp only [Option.some.injEq, Prod.mk.injEq] at h
      obtain ⟨rfl, rfl⟩ := h
      exact ⟨[], rest, rfl, rfl, ha, by simp⟩
    · rw [if_neg ha] at h
      cases hr : findID id rest with
      | none => rw [hr] at h; simp at h
      | some r =>
        obtain ⟨j, t'⟩ := r
        rw [hr] at h
        simp only [Option.map_some', Option.some.injEq, Prod.mk.injEq] at h
        obtain ⟨rfl, rfl⟩ := h
        obtain ⟨pre, post, hl, hlen, hid, hpre⟩ := ih hr
        refine ⟨a :: pre, post, by rw [hl]; rfl, by simp [hlen], hid, ?_⟩
        intro x hx
        rcases List.mem_cons.mp hx with rfl | hx
        · exact ha
        · exact hpre x hx

theorem findID_none {id : Int} {l : List Todo} :
    findID id l = none ↔ ∀ x ∈ l, x.ID ≠ id := by
  induction l with
  | nil => simp [findID]
  | cons a rest ih =>
    unfold findID
    by_cases ha : a.ID = id
    · simp [ha]
    · simp [ha, ih]

theorem findID_of_mem {id : Int} {l : List Todo} (h : ∃ t ∈ l, t.ID = id) :
    ∃ i t, findID id l = some (i, t) := by
  cases hr : findID id l with
  | none =>
    obtain ⟨t, ht, hid⟩ := h
    exact absurd hid (findID_none.mp hr t ht)
  | some r => exact ⟨r.1, r.2, rfl⟩

theorem take_drop_split (pre : List Todo) (t : Todo) (post : List Todo) :
    (pre ++ t :: post).take pre.length ++ (pre ++ t :: post).drop (pre.length + 1) =
      pre ++ post := by
  induction pre with
  | nil => simp
  | cons a pre ih => simp [ih]

theorem set_split (pre : List Todo) (t t' : Todo) (post : List Todo) :
    (pre ++ t :: post).set pre.length t' = pre ++ t' :: post := by
  induction pre with
  | nil => simp
  | cons a pre ih => simp [ih]

theorem fieldsAux_ne_nil (cs cur : List Char) : ∀ tok ∈ fieldsAux cs cur, tok ≠ [] := by
  induction cs generalizing cur with
  | nil =>
    intro tok htok
    unfold fieldsAux at htok
    by_cases hc : cur = []
    · simp [hc] at htok
    · simp only [if_neg hc, List.mem_singleton] at htok
      rw [htok]
      simpa using hc
  | cons c cs ih =>
    intro tok htok
    unfold fieldsAux at htok
    by_cases hs : isSpace c = true
    · rw [if_pos hs] at htok
      by_cases hc : cur = []
      · rw [if_pos hc] at htok
        exact ih [] tok htok
      · rw [if_neg hc] at htok
        rcases List.mem_cons.mp htok with h | h
        · rw [h]; simpa using hc
        · exact ih [] tok h
    · rw [if_neg hs] at htok
      exact ih (c :: cur) tok htok

/-- Every field of `strings.Fields` is a non-empty string. -/
theorem Fields_ne_empty (s : String) : ∀ tok ∈ Fields s, tok ≠ "" := by
  intro tok htok
  unfold Fields at htok
  obtain ⟨l, hl, rfl⟩ := List.mem_map.mp htok
  intro h
  have := congrArg String.data h
  exact fieldsAux_ne_nil _ _ l hl this

/-- Joining a list whose first element is not empty gives a non-empty string. -/
theorem Join_ne_empty (a : String) (rest : List String) (sep : String) (ha : a ≠ "") :
    Join (a :: rest) sep ≠ "" := by
  have hd : a.data ≠ [] := by
    intro h
    apply ha
    cases a
    simp_all
  cases rest with
  | nil => simpa [Join] using ha
  | cons b rest =>
    intro h
    have := congrArg String.data h
    simp [Join, String.data_append] at this
    exact hd this.1

/-! ## Deleting a task -/

/-- C4. `deleteTodo` with a message of two fields whose second scans as `id`: when the list of
the user holds a task with that id, the new list is the old one without the first such task
(the tasks before and after it keep their order, the length drops by one), the lists of the
other users are the same and the reply reports the deletion; when the user has no entry or
no task of the user has that id, the state is unchanged and the reply is one of the two
not-found messages. -/
theorem deleteTodo_removes_first (L : Lib) (s : State) (userID id : Int) (text w p1 : String)
    (hf : Fields text = [w, p1]) (hid : L.Sscanf p1 = some id) :
    (∀ ut, s.todosData userID = some ut → (∃ t ∈ ut.Todos, t.ID = id) →
      ∃ pre t post, ut.Todos = pre ++ t :: post ∧ t.ID = id ∧ (∀ x ∈ pre, x.ID ≠ id) ∧
        (deleteTodo L s userID text).1.todosData userID =
          some { ut with Todos := pre ++ post } ∧
        (pre ++ post).length + 1 = ut.Todos.length ∧
        (∀ u, u ≠ userID → (deleteTodo L s userID text).1.todosData u = s.todosData u) ∧
        (deleteTodo L s userID text).1.nextID = s.nextID ∧
        (deleteTodo L s userID text).2 = Reply.text "✅ Task deleted") ∧
    ((s.todosData userID = none ∨
        ∃ ut, s.todosData userID = some ut ∧ ∀ t ∈ ut.Todos, t.ID ≠ id) →
      (deleteTodo L s userID text).1 = s ∧
      ((deleteTodo L s userID text).2 = Reply.text msgNoTasks ∨
        (deleteTodo L s userID text).2 = Reply.text msgNotFound)) := by
  unfold deleteTodo
  rw [hf]
  simp only [hid]
  constructor
  · intro ut hut hmem
    obtain ⟨i, t, hfind⟩ := findID_of_mem hmem
    obtain ⟨pre, post, hl, hlen, htid, hpre⟩ := findID_some hfind
    refine ⟨pre, t, post, hl, htid, hpre, ?_, ?_, ?_, ?_, ?_⟩
    · simp only [hut, hfind, saveTodos, setUser, if_true]
      rw [hl, ← hlen, take_drop_split]
    · rw [hl]; simp; omega
    · intro u hu
      simp only [hut, hfind, saveTodos, setUser, if_neg hu]
    · simp only [hut, hfind, saveTodos]
    · simp only [hut, hfind]
  · rintro (hnone | ⟨ut, hut, hall⟩)
    · rw [hnone]
      exact ⟨rfl, Or.inl rfl⟩
    · rw [hut]
      simp only []
      rw [findID_none.mpr hall]
      exact ⟨rfl, Or.inr rfl⟩

theorem deleteTodo_removes_first_witness :
    ((deleteTodo stdLib exampleState 7 "delete 1").1.todosData 7).map
        (fun ut => ut.Todos.map (fun t => t.ID)) = some [2] ∧
      (deleteTodo stdLib exampleState 7 "delete 1").2 = Reply.text "✅ Task deleted" := by
  obtain ⟨h, -⟩ := deleteTodo_removes_first stdLib exampleState 7 1 "delete 1" "delete" "1"
    (by decide) (by decide)
  obtain ⟨pre, t, post, -, -, -, -, -, -, -, hr⟩ :=
    h ((exampleState.todosData 7).getD ⟨0, []⟩) (by decide) (by decide)
  exact ⟨by decide, hr⟩

/-! ## Setting the recurrence -/

/-- C8. `updateTodoRepeat`: when the list of the user holds a task with the id, the first
such task receives the given kind, interval and days and keeps its id, text and date; the
tasks before and after it, the lists of the other users and the counter are unchanged.  When
the user has no entry or no task of the user has the id, the state is unchanged and the reply
is one of the two not-found messages.  The handlers pass interval 0 and no days for daily,
interval 0 and the day fields for weekly, the scanned interval and no days for custom. -/
theorem updateTodoRepeat_frame (s : State) (userID id : Int) (repeatType : String)
    (interval : Int) (days : List String) :
    (∀ ut, s.todosData userID = some ut → (∃ t ∈ ut.Todos, t.ID = id) →
      ∃ pre t post, ut.Todos = pre ++ t :: post ∧ t.ID = id ∧ (∀ x ∈ pre, x.ID ≠ id) ∧
        (updateTodoRepeat s userID id repeatType interval days).1.todosData userID =
          some { ut with Todos := pre ++
            { ID := t.ID, Text := t.Text, Date := t.Date, Repeat := repeatType,
              Interval := interval, Days := days } :: post } ∧
        (∀ u, u ≠ userID →
          (updateTodoRepeat s userID id repeatType interval days).1.todosData u =
            s.todosData u) ∧
        (updateTodoRepeat s userID id repeatType interval days).1.nextID = s.nextID) ∧
    ((s.todosData userID = none ∨
        ∃ ut, s.todosData userID = some ut ∧ ∀ t ∈ ut.Todos, t.ID ≠ id) →
      (updateTodoRepeat s userID id repeatType interval days).1 = s ∧
      ((updateTodoRepeat s userID id repeatType interval days).2 = Reply.text msgNoTasks ∨
        (updateTodoRepeat s userID id repeatType interval days).2 = Reply.text msgNotFound)) ∧
    (∀ (L : Lib) (text w p1 : String), Fields text = [w, p1] → L.Sscanf p1 = some id →
      repeatDaily L s userID text = updateTodoRepeat s userID id "daily" 0 []) ∧
    (∀ (L : Lib) (text w p1 d : String) (ds : List String),
      Fields text = w :: p1 :: d :: ds → L.Sscanf p1 = some id →
      (∀ day ∈ d :: ds, L.ToLower day ∈ validDays) →
      repeatWeekly L s userID text = updateTodoRepeat s userID id "weekly" 0 (d :: ds)) ∧
    (∀ (L : Lib) (text w p1 p2 : String), Fields text = [w, p1, p2] →
      L.Sscanf p1 = some id → L.Sscanf p2 = some interval → 0 < interval →
      repeatCustom L s userID text = updateTodoRepeat s userID id "custom" interval []) := by
  refine ⟨?_, ?_, ?_, ?_, ?_⟩
  · intro ut hut hmem
    obtain ⟨i, t, hfind⟩ := findID_of_mem hmem
    obtain ⟨pre, post, hl, hlen, htid, hpre⟩ := findID_some hfind
    refine ⟨pre, t, post, hl, htid, hpre, ?_, ?_, ?_⟩
    · unfold updateTodoRepeat
      simp only [hut, hfind, saveTodos, setUser, if_true]
      rw [hl, ← hlen, set_split]
    · intro u hu
      unfold updateTodoRepeat
      simp only [hut, hfind, saveTodos, setUser, if_neg hu]
    · unfold updateTodoRepeat
      simp only [hut, hfind, saveTodos]
  · unfold updateTodoRepeat
    rintro (hnone | ⟨ut, hut, hall⟩)
    · rw [hnone]
      exact ⟨rfl, Or.inl rfl⟩
    · rw [hut]
      simp only []
      rw [findID_none.mpr hall]
      exact ⟨rfl, Or.inr rfl⟩
  · intro L text w p1 hf hid
    unfold repeatDaily
    rw [hf]
    simp only [hid]
  · intro L text w p1 d ds hf hid hdays
    unfold repeatWeekly
    rw [hf]
    simp only [hid]
    rw [if_pos]
    rw [List.all_eq_true]
    intro day hday
    exact decide_eq_true (hdays day hday)
  · intro L text w p1 p2 hf hid hiv hpos
    unfold repeatCustom
    rw [hf]
    simp only [hid, hiv]
    rw [if_neg (by omega)]

theorem updateTodoRepeat_frame_witness :
    ((repeatCustom stdLib exampleState 7 "/repeat_custom 2 3").1.todosData 7).map
        (fun ut => ut.Todos.map (fun t => (t.ID, t.Text, t.Repeat, t.Interval, t.Days))) =
      some [(1, "buy milk", "none", 0, []), (2, "call bob", "custom", 3, [])] := by
  obtain ⟨h, -, -, -, hc⟩ := updateTodoRepeat_frame exampleState 7 2 "custom" 3 []
  obtain ⟨pre, t, post, -, -, -, -, -, -⟩ :=
    h ((exampleState.todosData 7).getD ⟨0, []⟩) (by decide) (by decide)
  rw [hc stdLib "/repeat_custom 2 3" "/repeat_custom" "2" "3" (by decide) (by decide)
    (by decide) (by decide)]
  rfl

/-! ## Adding a task -/

theorem appendTodo_appended (s : State) (userID : Int) (date : Time) (todoText : String) :
    AppendedTo s (appendTodo s userID date todoText).1 userID
        { ID := s.nextID, Text := todoText, Date := date, Repeat := "none", Interval := 0,
          Days := [] } ∧
      (appendTodo s userID date todoText).2 =
        Reply.added { ID := s.nextID, Text := todoText, Date := date, Repeat := "none",
                      Interval := 0, Days := [] } := by
  refine ⟨⟨?_, ?_, ?_, ?_⟩, rfl⟩
  · intro ut hut
    simp only [appendTodo, saveTodos, setUser, hut, if_true]
  · intro hnone
    simp only [appendTodo, saveTodos, setUser, hnone, if_true, List.nil_append]
  · intro u hu
    simp only [appendTodo, saveTodos, setUser, if_neg hu]
  · simp only [appendTodo, saveTodos]

/-- C9. `addTodo` on a message with at least one text field after the optional date field
appends one task at the end of the list of the user (the list is created when the user has
none): recurrence "none", interval 0, no days, a non-empty text that is the text fields
joined by single spaces, the parsed date when the second field parses as a date and the
clock reading otherwise, and the counter value before the call as id; the other tasks of
every user are unchanged and the counter advances by one.  A message with a date field and no
text field leaves the state unchanged. -/
theorem addTodo_appends (L : Lib) (now : Time) (s : State) (userID : Int) (text : String) :
    (∀ w p1 rest, Fields text = w :: p1 :: rest → L.Parse p1 = none →
      AppendedTo s (addTodo L now s userID text).1 userID
          { ID := s.nextID, Text := Join (p1 :: rest) " ", Date := now, Repeat := "none",
            Interval := 0, Days := [] } ∧
        (addTodo L now s userID text).2 =
          Reply.added { ID := s.nextID, Text := Join (p1 :: rest) " ", Date := now,
                        Repeat := "none", Interval := 0, Days := [] } ∧
        Join (p1 :: rest) " " ≠ "") ∧
    (∀ w p1 r rest date, Fields text = w :: p1 :: r :: rest → L.Parse p1 = some date →
      AppendedTo s (addTodo L now s userID text).1 userID
          { ID := s.nextID, Text := Join (r :: rest) " ", Date := date, Repeat := "none",
            Interval := 0, Days := [] } ∧
        (addTodo L now s userID text).2 =
          Reply.added { ID := s.nextID, Text := Join (r :: rest) " ", Date := date,
                        Repeat := "none", Interval := 0, Days := [] } ∧
        Join (r :: rest) " " ≠ "") ∧
    (∀ w p1 date, Fields text = [w, p1] → L.Parse p1 = some date →
      (addTodo L now s userID text).1 = s) := by
  refine ⟨?_, ?_, ?_⟩
  · intro w p1 rest hf hp
    have hne : p1 ≠ "" := Fields_ne_empty text p1 (by rw [hf]; simp)
    unfold addTodo
    rw [hf]
    simp only [hp]
    exact ⟨(appendTodo_appended s userID now _).1, (appendTodo_appended s userID now _).2,
      Join_ne_empty p1 rest " " hne⟩
  · intro w p1 r rest date hf hp
    have hne : r ≠ "" := Fields_ne_empty text r (by rw [hf]; simp)
    unfold addTodo
    rw [hf]
    simp only [hp]
    rw [if_neg (by simp)]
    exact ⟨(appendTodo_appended s userID date _).1, (appendTodo_appended s userID date _).2,
      Join_ne_empty r rest " " hne⟩
  · intro w p1 date hf hp
    unfold addTodo
    rw [hf]
    simp only [hp]
    rfl

theorem addTodo_appends_witness :
    (addTodo stdLib ⟨1709290800000000000, 0⟩ (loadTodos none) 7 "add  Buy   milk").2 =
        Reply.added ⟨1, "Buy milk", ⟨1709290800000000000, 0⟩, "none", 0, []⟩ ∧
      (addTodo stdLib ⟨1709290800000000000, 0⟩ (loadTodos none) 7
          "add 04.03.2024 call bob").2 =
        Reply.added ⟨1, "call bob", ⟨1709510400000000000, 0⟩, "none", 0, []⟩ := by
  obtain ⟨h1, -, -⟩ :=
    addTodo_appends stdLib ⟨1709290800000000000, 0⟩ (loadTodos none) 7 "add  Buy   milk"
  obtain ⟨-, h2, -⟩ :=
    addTodo_appends stdLib ⟨1709290800000000000, 0⟩ (loadTodos none) 7
      "add 04.03.2024 call bob"
  exact ⟨(h1 "add" "Buy" ["milk"] (by decide) (by decide)).2.1,
    (h2 "add" "04.03.2024" "call" ["bob"] ⟨1709510400000000000, 0⟩ (by decide)
      (by decide)).2.1⟩

/-! ## Weekly tasks -/

/-- C3. For a task with recurrence "weekly", `isRepeatingTaskDueToday` returns and does not
fault; it returns true exactly when the lower-cased name of the weekday of the reference
instant equals the lower-cased form of one of the days of the task; the weekday is one of the
seven of the week; the result is the same for every date of the task. -/
theorem weekly_due_iff (L : Lib) (now : Time) (todo : Todo) (h : todo.Repeat = "weekly") :
    (∃ b, isRepeatingTaskDueToday L now todo = some b) ∧
    (isRepeatingTaskDueToday L now todo = some true ↔
      ∃ day ∈ todo.Days, L.ToLower day = L.ToLower (weekdayString now.Weekday)) ∧
    now.Weekday < 7 ∧
    (∀ date : Time,
      isRepeatingTaskDueToday L now { todo with Date := date } =
        isRepeatingTaskDueToday L now todo) := by
  have hd : ¬ todo.Repeat = "daily" := by rw [h]; decide
  refine ⟨?_, ?_, ?_, ?_⟩
  · unfold isRepeatingTaskDueToday
    simp only [if_neg hd, if_pos h]
    exact ⟨_, rfl⟩
  · unfold isRepeatingTaskDueToday
    simp only [if_neg hd, if_pos h, Option.some.injEq, List.any_eq_true, decide_eq_true_eq]
  · unfold Time.Weekday
    omega
  · intro date
    unfold isRepeatingTaskDueToday
    simp only [if_neg hd, if_pos h]

theorem weekly_due_iff_witness :
    isRepeatingTaskDueToday stdLib ⟨1709290800000000000, 0⟩
        ⟨1, "gym", ⟨1809290800000000000, 0⟩, "weekly", 0, ["Monday", "FRIDAY"]⟩ = some true ∧
      isRepeatingTaskDueToday stdLib ⟨1709377200000000000, 0⟩
        ⟨1, "gym", ⟨1809290800000000000, 0⟩, "weekly", 0, ["Monday", "FRIDAY"]⟩ =
          some false := by
  have h1 := weekly_due_iff stdLib ⟨1709290800000000000, 0⟩
    ⟨1, "gym", ⟨1809290800000000000, 0⟩, "weekly", 0, ["Monday", "FRIDAY"]⟩ rfl
  refine ⟨h1.2.1.mpr ⟨"FRIDAY", by decide, by decide⟩, by decide⟩

/-! ## The list for today -/

theorem isRepeating_ne_none (L : Lib) (now : Time) (t : Todo)
    (h : t.Repeat = "custom" → t.Interval ≠ 0) :
    ∃ b, isRepeatingTaskDueToday L now t = some b := by
  unfold isRepeatingTaskDueToday
  simp only
  split_ifs with h1 h2 h3 h4 h5
  · exact ⟨_, rfl⟩
  · exact ⟨_, rfl⟩
  · exact absurd h5 (h h3)
  · exact ⟨_, rfl⟩
  · exact ⟨_, rfl⟩
  · exact ⟨_, rfl⟩

theorem dueLoop_eq_filter (L : Lib) (now : Time) (l : List Todo)
    (h : ∀ t ∈ l, t.Repeat = "custom" → t.Interval ≠ 0) :
    dueLoop L now l = some (l.filter (fun t =>
      decide (t.Date.civilDay = now.civilDay) ||
        decide (isRepeatingTaskDueToday L now t = some true))) := by
  induction l with
  | nil => rfl
  | cons a rest ih =>
    have ih := ih (fun t ht => h t (List.mem_cons_of_mem a ht))
    obtain ⟨b, hb⟩ := isRepeating_ne_none L now a (h a (List.mem_cons_self a rest))
    unfold dueLoop
    by_cases hday : a.Date.civilDay = now.civilDay
    · have hF : a.Date.Format = now.Format := hday
      simp only [hF, if_true, ih, Option.map_some']
      rw [List.filter_cons_of_pos (by simp [hday])]
    · have hF : ¬ a.Date.Format = now.Format := hday
      simp only [hF, if_false, hb, ih, Option.map_some']
      cases b with
      | true => rw [List.filter_cons_of_pos (by simp [hb])]; rfl
      | false => rw [List.filter_cons_of_neg (by simp [hb, hday])]; rfl

/-- C7. `showTodayTodos`, all clock readings of one call being the instant `now`: a user
without an entry gets the empty-list reply; for a user whose tasks of recurrence "custom"
have an interval other than 0, the tasks listed are the tasks of the user, in the order of
the list, whose date falls on the calendar day of `now` or for which
`isRepeatingTaskDueToday` is true at `now` (the empty-list reply when the user has no task,
the no-task reply when none is due); a task of recurrence "none" is never due by the rule,
so it is listed exactly on the calendar day of its date. -/
theorem showTodayTodos_lists_due (L : Lib) (now : Time) (s : State) (userID : Int) :
    (s.todosData userID = none →
      showTodayTodos L now s userID = some (Reply.text msgEmpty)) ∧
    (∀ ut, s.todosData userID = some ut →
      (∀ t ∈ ut.Todos, t.Repeat = "custom" → t.Interval ≠ 0) →
      showTodayTodos L now s userID =
        some (if ut.Todos = [] then Reply.text msgEmpty
          else if ut.Todos.filter (fun t =>
              decide (t.Date.civilDay = now.civilDay) ||
                decide (isRepeatingTaskDueToday L now t = some true)) = []
            then Reply.text "📝 No tasks for today"
          else Reply.today (ut.Todos.filter (fun t =>
              decide (t.Date.civilDay = now.civilDay) ||
                decide (isRepeatingTaskDueToday L now t = some true))))) ∧
    (∀ t : Todo, t.Repeat = "none" →
      isRepeatingTaskDueToday L now t = some false ∧
      ∀ l : List Todo, (t ∈ l.filter (fun t =>
              decide (t.Date.civilDay = now.civilDay) ||
                decide (isRepeatingTaskDueToday L now t = some true)) ↔
          t ∈ l ∧ t.Date.civilDay = now.civilDay)) := by
  refine ⟨?_, ?_, ?_⟩
  · intro hnone
    unfold showTodayTodos
    rw [hnone]
  · intro ut hut hwf
    unfold showTodayTodos
    rw [hut]
    simp only [dueLoop_eq_filter L now ut.Todos hwf]
    by_cases hnil : ut.Todos = []
    · simp [hnil]
    · have : ¬ ut.Todos.length = 0 := by simpa using hnil
      simp only [this, hnil, if_false]
      split_ifs <;> rfl
  · intro t ht
    have hfalse : isRepeatingTaskDueToday L now t = some false := by
      unfold isRepeatingTaskDueToday
      simp only [ht]
      rfl
    refine ⟨hfalse, ?_⟩
    intro l
    simp [List.mem_filter, hfalse]

theorem showTodayTodos_lists_due_witness :
    showTodayTodos stdLib ⟨1709290800000000000, 0⟩ exampleState 7 =
        some (Reply.today [⟨1, "buy milk", ⟨1709290800000000000, 0⟩, "none", 0, []⟩]) ∧
      showTodayTodos stdLib ⟨1709377200000000000, 0⟩ exampleState 7 =
        some (Reply.text "📝 No tasks for today") := by
  obtain ⟨-, h, -⟩ := showTodayTodos_lists_due stdLib ⟨1709290800000000000, 0⟩ exampleState 7
  obtain ⟨-, h', -⟩ := showTodayTodos_lists_due stdLib ⟨1709377200000000000, 0⟩ exampleState 7
  have e1 := h ((exampleState.todosData 7).getD ⟨0, []⟩) (by decide) (by decide)
  have e2 := h' ((exampleState.todosData 7).getD ⟨0, []⟩) (by decide) (by decide)
  rw [e1, e2]
  exact ⟨by decide, by decide⟩

/-! ## Well-formed recurrence fields -/

theorem appendTodo_wf (L : Lib) (s : State) (userID : Int) (date : Time) (todoText : String)
    (h : StateWF L s) : StateWF L (appendTodo s userID date todoText).1 := by
  intro u ut t hu ht
  simp only [appendTodo, saveTodos, setUser] at hu
  by_cases huu : u = userID
  · rw [if_pos huu] at hu
    simp only [Option.some.injEq] at hu
    subst hu
    simp only [List.mem_append, List.mem_singleton] at ht
    rcases ht with ht | ht
    · cases hs : s.todosData userID with
      | none => rw [hs] at ht; simp at ht
      | some ut0 => rw [hs] at ht; exact h userID ut0 t hs ht
    · subst ht
      have h1 : ¬ ("none" : String) = "custom" := by decide
      have h2 : ¬ ("none" : String) = "weekly" := by decide
      exact ⟨fun hc => absurd hc h1, fun hc => absurd hc h2⟩
  · rw [if_neg huu] at hu
    exact h u ut t hu ht

theorem addTodo_wf (L : Lib) (now : Time) (s : State) (userID : Int) (text : String)
    (h : StateWF L s) : StateWF L (addTodo L now s userID text).1 := by
  unfold addTodo
  split
  · split
    · split
      · exact h
      · exact appendTodo_wf L s userID _ _ h
    · exact appendTodo_wf L s userID _ _ h
  · exact h

theorem deleteTodo_wf (L : Lib) (s : State) (userID : Int) (text : String)
    (h : StateWF L s) : StateWF L (deleteTodo L s userID text).1 := by
  unfold deleteTodo
  split
  · split
    · exact h
    · split
      · exact h
      · rename_i userTodos hs
        split
        · intro u ut t hu ht
          simp only [saveTodos, setUser] at hu
          by_cases huu : u = userID
          · rw [if_pos huu] at hu
            simp only [Option.some.injEq] at hu
            subst hu
            simp only [List.mem_append] at ht
            rcases ht with ht | ht
            · exact h userID userTodos t hs (List.mem_of_mem_take ht)
            · exact h userID userTodos t hs (List.mem_of_mem_drop ht)
          · rw [if_neg huu] at hu
            exact h u ut t hu ht
        · exact h
  · exact h

theorem clearTodos_wf (L : Lib) (s : State) (userID : Int) (h : StateWF L s) :
    StateWF L (clearTodos s userID).1 := by
  unfold clearTodos
  split
  · intro u ut t hu ht
    simp only [saveTodos, setUser] at hu
    by_cases huu : u = userID
    · rw [if_pos huu] at hu
      simp only [Option.some.injEq] at hu
      subst hu
      simp at ht
    · rw [if_neg huu] at hu
      exact h u ut t hu ht
  · exact h

theorem updateTodoRepeat_wf (L : Lib) (s : State) (userID id : Int) (repeatType : String)
    (interval : Int) (days : List String) (h : StateWF L s)
    (hc : repeatType = "custom" → 1 ≤ interval)
    (hw : repeatType = "weekly" → days ≠ [] ∧ ∀ day ∈ days, L.ToLower day ∈ validDays) :
    StateWF L (updateTodoRepeat s userID id repeatType interval days).1 := by
  unfold updateTodoRepeat
  split
  · exact h
  · rename_i userTodos hs
    split
    · intro u ut t hu ht
      simp only [saveTodos, setUser] at hu
      by_cases huu : u = userID
      · rw [if_pos huu] at hu
        simp only [Option.some.injEq] at hu
        subst hu
        rcases List.mem_or_eq_of_mem_set ht with ht | ht
        · exact h userID userTodos t hs ht
        · subst ht
          exact ⟨hc, hw⟩
      · rw [if_neg huu] at hu
        exact h u ut t hu ht
    · exact h

theorem repeatDaily_wf (L : Lib) (s : State) (userID : Int) (text : String)
    (h : StateWF L s) : StateWF L (repeatDaily L s userID text).1 := by
  unfold repeatDaily
  split
  · split
    · exact h
    · exact updateTodoRepeat_wf L s userID _ "daily" 0 [] h (fun hc => absurd hc (by decide))
        (fun hc => absurd hc (by decide))
  · exact h

theorem repeatWeekly_wf (L : Lib) (s : State) (userID : Int) (text : String)
    (h : StateWF L s) : StateWF L (repeatWeekly L s userID text).1 := by
  unfold repeatWeekly
  split
  · split
    · exact h
    · split
      · rename_i d ds _ _ _ _ hall
        refine updateTodoRepeat_wf L s userID _ "weekly" 0 (d :: ds) h
          (fun hc => absurd hc (by decide)) (fun _ => ⟨by simp, ?_⟩)
        intro day hday
        rw [List.all_eq_true] at hall
        exact of_decide_eq_true (hall day hday)
      · exact h
  · exact h

theorem repeatCustom_wf (L : Lib) (s : State) (userID : Int) (text : String)
    (h : StateWF L s) : StateWF L (repeatCustom L s userID text).1 := by
  unfold repeatCustom
  split
  · split
    · exact h
    · split
      · exact h
      · split
        · exact h
        · rename_i interval _ hpos
          exact updateTodoRepeat_wf L s userID _ "custom" interval [] h (fun _ => by omega)
            (fun hc => absurd hc (by decide))
  · exact h

theorem step_wf (L : Lib) (s : State) (c : Cmd) (h : StateWF L s) :
    StateWF L (step L s c).1 := by
  cases c with
  | add userID text now => exact addTodo_wf L now s userID text h
  | delete userID text => exact deleteTodo_wf L s userID text h
  | clear userID => exact clearTodos_wf L s userID h
  | repeatDaily userID text => exact repeatDaily_wf L s userID text h
  | repeatWeekly userID text => exact repeatWeekly_wf L s userID text h
  | repeatCustom userID text => exact repeatCustom_wf L s userID text h

theorem run_wf (L : Lib) (cmds : List Cmd) (s : State) (h : StateWF L s) :
    StateWF L (run L s cmds).1 := by
  induction cmds generalizing s with
  | nil => exact h
  | cons c cs ih => exact ih (step L s c).1 (step_wf L s c h)

/-- C10, as the code has it.  In every state reached from the empty store by a sequence of
add, delete, clear, repeat_daily, repeat_weekly and repeat_custom messages with whatever
text, every task of recurrence "custom" has an interval of at least 1 and every task of
recurrence "weekly" has a non-empty list of days each of which lower-cases to one of the
seven weekday names.  A repeat_custom message whose interval field `fmt.Sscanf` does not scan
or scans as a number that is not positive, and a repeat_weekly message with a day that does
not lower-case to a weekday name, leave the state unchanged. -/
theorem wellFormed_reachable (L : Lib) (cmds : List Cmd) :
    (∀ u ut t, (run L (loadTodos none) cmds).1.todosData u = some ut → t ∈ ut.Todos →
      (t.Repeat = "custom" → 1 ≤ t.Interval) ∧
      (t.Repeat = "weekly" →
        t.Days ≠ [] ∧ ∀ day ∈ t.Days, L.ToLower day ∈ validDays)) ∧
    (∀ (s : State) (userID : Int) (text w p1 p2 : String), Fields text = [w, p1, p2] →
      (L.Sscanf p2 = none ∨ ∃ n, L.Sscanf p2 = some n ∧ n ≤ 0) →
      (repeatCustom L s userID text).1 = s) ∧
    (∀ (s : State) (userID : Int) (text w p1 d : String) (ds : List String),
      Fields text = w :: p1 :: d :: ds →
      (∃ day ∈ d :: ds, L.ToLower day ∉ validDays) →
      (repeatWeekly L s userID text).1 = s) := by
  refine ⟨?_, ?_, ?_⟩
  · have h0 : StateWF L (loadTodos none) := by
      intro u ut t hu
      simp [loadTodos] at hu
    exact run_wf L cmds (loadTodos none) h0
  · intro s userID text w p1 p2 hf hbad
    unfold repeatCustom
    rw [hf]
    simp only
    cases L.Sscanf p1 with
    | none => rfl
    | some id =>
      rcases hbad with h | ⟨n, h, hn⟩
      · simp only [h]
      · simp only [h, if_pos hn]
  · intro s userID text w p1 d ds hf hbad
    unfold repeatWeekly
    rw [hf]
    simp only
    cases L.Sscanf p1 with
    | none => rfl
    | some id =>
      obtain ⟨day, hday, hnv⟩ := hbad
      have : ¬ ((d :: ds).all (fun day => decide (L.ToLower day ∈ validDays)) = true) := by
        rw [List.all_eq_true]
        intro hall
        exact hnv (of_decide_eq_true (hall day hday))
      simp only [if_neg this]

/-- C10 fails.  The interval fields "3x" and "2.5" are not numbers, and `fmt.Sscanf` with
`%d` scans their leading digits: the messages `/repeat_custom 1 3x` and
`/repeat_custom 2 2.5` are accepted and change the store, task 1 receiving the interval 3 and
task 2 the interval 2. -/
theorem repeatCustom_accepts_digit_prefix :
    ((repeatCustom stdLib exampleState 7 "/repeat_custom 1 3x").1.todosData 7).map
        (fun ut => ut.Todos.map (fun t => (t.ID, t.Repeat, t.Interval))) =
      some [(1, "custom", 3), (2, "none", 0)] ∧
    (repeatCustom stdLib exampleState 7 "/repeat_custom 1 3x").1.todosData 7 ≠
      exampleState.todosData 7 ∧
    ((repeatCustom stdLib exampleState 7 "/repeat_custom 2 2.5").1.todosData 7).map
        (fun ut => ut.Todos.map (fun t => (t.ID, t.Repeat, t.Interval))) =
      some [(1, "none", 0), (2, "custom", 2)] ∧
    (repeatCustom stdLib exampleState 7 "/repeat_custom 2 2.5").1.todosData 7 ≠
      exampleState.todosData 7 := by
  refine ⟨rfl, by decide, rfl, by decide⟩

/-! ## The id counter -/

theorem updateTodoRepeat_nextID (s : State) (userID id : Int) (repeatType : String)
    (interval : Int) (days : List String) :
    (updateTodoRepeat s userID id repeatType interval days).1.nextID = s.nextID ∧
      assignedID (updateTodoRepeat s userID id repeatType interval days).2 = none := by
  unfold updateTodoRepeat
  split
  · exact ⟨rfl, rfl⟩
  · split
    · exact ⟨rfl, rfl⟩
    · exact ⟨rfl, rfl⟩

theorem deleteTodo_nextID (L : Lib) (s : State) (userID : Int) (text : String) :
    (deleteTodo L s userID text).1.nextID = s.nextID ∧
      assignedID (deleteTodo L s userID text).2 = none := by
  unfold deleteTodo
  split
  · split
    · exact ⟨rfl, rfl⟩
    · split
      · exact ⟨rfl, rfl⟩
      · split
        · exact ⟨rfl, rfl⟩
        · exact ⟨rfl, rfl⟩
  · exact ⟨rfl, rfl⟩

theorem clearTodos_nextID (s : State) (userID : Int) :
    (clearTodos s userID).1.nextID = s.nextID ∧ assignedID (clearTodos s userID).2 = none := by
  unfold clearTodos
  split
  · exact ⟨rfl, rfl⟩
  · exact ⟨rfl, rfl⟩

theorem repeatDaily_nextID (L : Lib) (s : State) (userID : Int) (text : String) :
    (repeatDaily L s userID text).1.nextID = s.nextID ∧
      assignedID (repeatDaily L s userID text).2 = none := by
  unfold repeatDaily
  split
  · split
    · exact ⟨rfl, rfl⟩
    · exact updateTodoRepeat_nextID _ _ _ _ _ _
  · exact ⟨rfl, rfl⟩

theorem repeatWeekly_nextID (L : Lib) (s : State) (userID : Int) (text : String) :
    (repeatWeekly L s userID text).1.nextID = s.nextID ∧
      assignedID (repeatWeekly L s userID text).2 = none := by
  unfold repeatWeekly
  split
  · split
    · exact ⟨rfl, rfl⟩
    · split
      · exact updateTodoRepeat_nextID _ _ _ _ _ _
      · exact ⟨rfl, rfl⟩
  · exact ⟨rfl, rfl⟩

theorem repeatCustom_nextID (L : Lib) (s : State) (userID : Int) (text : String) :
    (repeatCustom L s userID text).1.nextID = s.nextID ∧
      assignedID (repeatCustom L s userID text).2 = none := by
  unfold repeatCustom
  split
  · split
    · exact ⟨rfl, rfl⟩
    · split
      · exact ⟨rfl, rfl⟩
      · split
        · exact ⟨rfl, rfl⟩
        · exact updateTodoRepeat_nextID _ _ _ _ _ _
  · exact ⟨rfl, rfl⟩

theorem addTodo_nextID (L : Lib) (now : Time) (s : State) (userID : Int) (text : String) :
    ((addTodo L now s userID text).1.nextID = s.nextID ∧
        assignedID (addTodo L now s userID text).2 = none) ∨
      ((addTodo L now s userID text).1.nextID = wrap64 (s.nextID + 1) ∧
        assignedID (addTodo L now s userID text).2 = some s.nextID) := by
  unfold addTodo
  split
  · split
    · split
      · exact Or.inl ⟨rfl, rfl⟩
      · exact Or.inr ⟨rfl, rfl⟩
    · exact Or.inr ⟨rfl, rfl⟩
  · exact Or.inl ⟨rfl, rfl⟩

theorem step_nextID (L : Lib) (s : State) (c : Cmd) :
    ((step L s c).1.nextID = s.nextID ∧ assignedID (step L s c).2 = none) ∨
      ((step L s c).1.nextID = wrap64 (s.nextID + 1) ∧
        assignedID (step L s c).2 = some s.nextID) := by
  cases c with
  | add userID text now => exact addTodo_nextID L now s userID text
  | delete userID text => exact Or.inl (deleteTodo_nextID L s userID text)
  | clear userID => exact Or.inl (clearTodos_nextID s userID)
  | repeatDaily userID text => exact Or.inl (repeatDaily_nextID L s userID text)
  | repeatWeekly userID text => exact Or.inl (repeatWeekly_nextID L s userID text)
  | repeatCustom userID text => exact Or.inl (repeatCustom_nextID L s userID text)

theorem wrap64_of_range (n : Int) (h1 : -2 ^ 63 ≤ n) (h2 : n < 2 ^ 63) : wrap64 n = n := by
  unfold wrap64
  omega

theorem wrap64_ge (n : Int) : -2 ^ 63 ≤ wrap64 n := by
  unfold wrap64
  omega

theorem assignedIDs_cons (L : Lib) (s : State) (c : Cmd) (cs : List Cmd) :
    assignedIDs L s (c :: cs) =
      (match assignedID (step L s c).2 with
        | some i => i :: assignedIDs L (step L s c).1 cs
        | none => assignedIDs L (step L s c).1 cs) := by
  unfold assignedIDs
  simp only [run, List.filterMap_cons]
  cases assignedID (step L s c).2 <;> rfl

/-- While the counter does not pass the greatest `int`, the ids assigned are the consecutive
integers from the value of the counter. -/
theorem assignedIDs_eq (L : Lib) (cmds : List Cmd) (s : State) (hlo : -2 ^ 63 ≤ s.nextID)
    (hhi : s.nextID + (assignedIDs L s cmds).length ≤ 2 ^ 63) :
    assignedIDs L s cmds =
      (List.range (assignedIDs L s cmds).length).map (fun (k : Nat) => s.nextID + (k : Int)) := by
  induction cmds generalizing s with
  | nil => rfl
  | cons c cs ih =>
    rw [assignedIDs_cons] at hhi ⊢
    rcases step_nextID L s c with ⟨hn, ha⟩ | ⟨hn, ha⟩
    · rw [ha] at hhi ⊢
      simp only at hhi ⊢
      have := ih (step L s c).1 (by rw [hn]; exact hlo) (by rw [hn]; exact hhi)
      rw [hn] at this
      exact this
    · rw [ha] at hhi ⊢
      simp only [List.length_cons] at hhi ⊢
      rw [List.range_succ_eq_map, List.map_cons, List.map_map]
      simp only [Nat.cast_zero, add_zero, List.cons.injEq, true_and]
      by_cases hempty : (assignedIDs L (step L s c).1 cs).length = 0
      · rw [hempty, List.length_eq_zero.mp hempty]
        rfl
      · have hw : wrap64 (s.nextID + 1) = s.nextID + 1 := by
          apply wrap64_of_range
          · omega
          · have : (1 : Int) ≤ ((assignedIDs L (step L s c).1 cs).length : Int) := by omega
            push_cast at hhi
            omega
        have := ih (step L s c).1 (by rw [hn]; exact wrap64_ge _)
          (by rw [hn, hw]; push_cast at hhi; omega)
        rw [hn, hw] at this
        rw [this]
        simp only [List.length_map, List.length_range]
        apply List.map_congr_left
        intro k _
        simp only [Function.comp, Nat.succ_eq_add_one]
        push_cast
        ring

/-- C6. In a process run started by `loadTodos` on whatever file, with fewer than `2 ^ 63`
successful adds (the counter is a 64-bit `int`), the ids assigned by `addTodo` are, in
assignment order, 1, 2, 3 and so on: strictly increasing and pairwise distinct, whatever
deletes, clears and recurrence changes are interleaved and whichever users send the
messages.  Delete, clear and the three repeat handlers leave the counter unchanged. -/
theorem assignedIDs_increasing (L : Lib) (file : Option TodosData) (cmds : List Cmd)
    (h : ((assignedIDs L (loadTodos file) cmds).length : Int) < 2 ^ 63) :
    assignedIDs L (loadTodos file) cmds =
        (List.range (assignedIDs L (loadTodos file) cmds).length).map
          (fun (k : Nat) => 1 + (k : Int)) ∧
      List.Pairwise (fun a b => a < b) (assignedIDs L (loadTodos file) cmds) ∧
      (assignedIDs L (loadTodos file) cmds).Nodup ∧
      (∀ (s : State) (userID : Int) (text : String),
        (deleteTodo L s userID text).1.nextID = s.nextID ∧
        (clearTodos s userID).1.nextID = s.nextID ∧
        (repeatDaily L s userID text).1.nextID = s.nextID ∧
        (repeatWeekly L s userID text).1.nextID = s.nextID ∧
        (repeatCustom L s userID text).1.nextID = s.nextID) := by
  have heq := assignedIDs_eq L cmds (loadTodos file) (by simp [loadTodos])
    (by simp only [loadTodos] at h ⊢; omega)
  have hpw : List.Pairwise (fun a b => a < b) (assignedIDs L (loadTodos file) cmds) := by
    rw [heq, List.pairwise_map]
    refine (List.pairwise_lt_range _).imp ?_
    intro a b hab
    simp only [loadTodos]
    omega
  refine ⟨heq, hpw, ?_, ?_⟩
  · exact hpw.imp (fun hab => ne_of_lt hab)
  · intro s userID text
    exact ⟨(deleteTodo_nextID L s userID text).1, (clearTodos_nextID s userID).1,
      (repeatDaily_nextID L s userID text).1, (repeatWeekly_nextID L s userID text).1,
      (repeatCustom_nextID L s userID text).1⟩

theorem assignedIDs_increasing_witness :
    assignedIDs stdLib (loadTodos none)
        [Cmd.add 7 "add buy milk" ⟨1709290800000000000, 0⟩,
         Cmd.add 8 "add 04.03.2024 call bob" ⟨1709290800000000000, 0⟩,
         Cmd.delete 7 "delete 1",
         Cmd.add 8 "add 05.03.2024" ⟨1709290800000000000, 0⟩,
         Cmd.clear 8,
         Cmd.add 7 "add water plants" ⟨1709290800000000000, 0⟩] = [1, 2, 3] ∧
      List.Pairwise (fun a b => a < b)
        (assignedIDs stdLib (loadTodos none)
          [Cmd.add 7 "add buy milk" ⟨1709290800000000000, 0⟩,
           Cmd.add 8 "add 04.03.2024 call bob" ⟨1709290800000000000, 0⟩,
           Cmd.delete 7 "delete 1",
           Cmd.add 8 "add 05.03.2024" ⟨1709290800000000000, 0⟩,
           Cmd.clear 8,
           Cmd.add 7 "add water plants" ⟨1709290800000000000, 0⟩]) :=
  ⟨by decide,
    (assignedIDs_increasing stdLib none
      [Cmd.add 7 "add buy milk" ⟨1709290800000000000, 0⟩,
       Cmd.add 8 "add 04.03.2024 call bob" ⟨1709290800000000000, 0⟩,
       Cmd.delete 7 "delete 1",
       Cmd.add 8 "add 05.03.2024" ⟨1709290800000000000, 0⟩,
       Cmd.clear 8,
       Cmd.add 7 "add water plants" ⟨1709290800000000000, 0⟩] (by decide)).2.1⟩

/-! ## Ids after a restart -/

/-- C5. A first run adds a task for user 7 from the empty store, which writes `todos.json`;
a second run starts with `loadTodos` on that file and adds another task for user 7: both
tasks of the list have id 1, since the counter starts again at 1. -/
theorem restart_reuses_id :
    ((addTodo stdLib ⟨1709377200000000000, 0⟩
        (loadTodos
          (addTodo stdLib ⟨1709290800000000000, 0⟩ (loadTodos none) 7 "add buy milk").1.file)
        7 "add call bob").1.todosData 7).map (fun ut => ut.Todos.map (fun t => (t.ID, t.Text))) =
      some [(1, "buy milk"), (1, "call bob")] := by
  rfl

/-! ## Tasks repeating every n days -/

theorem Sub_range (t u : Time) : minDuration ≤ t.Sub u ∧ t.Sub u ≤ maxDuration := by
  unfold Time.Sub minDuration maxDuration
  simp only
  split_ifs <;> constructor <;> omega

theorem Sub_le (t u : Time) (h : t.ns - u.ns ≤ -dayNs) : t.Sub u ≤ -dayNs := by
  unfold Time.Sub minDuration maxDuration dayNs Hour at *
  simp only
  split_ifs <;> omega

theorem Sub_gt (t u : Time) (h : -dayNs < t.ns - u.ns) : -dayNs < t.Sub u := by
  unfold Time.Sub minDuration maxDuration dayNs Hour at *
  simp only
  split_ifs <;> omega

/-- The branch of `isRepeatingTaskDueToday` for recurrence "custom". -/
theorem custom_eval (L : Lib) (now : Time) (todo : Todo) (h : todo.Repeat = "custom") :
    isRepeatingTaskDueToday L now todo =
      if 0 ≤ daysOf (now.Sub todo.Date) then
        (if todo.Interval = 0 then none
          else some (decide (Int.tmod (daysOf (now.Sub todo.Date)) todo.Interval = 0)))
      else some false := by
  have hd : ¬ todo.Repeat = "daily" := by rw [h]; decide
  have hw : ¬ todo.Repeat = "weekly" := by rw [h]; decide
  unfold isRepeatingTaskDueToday
  simp only [if_neg hd, if_neg hw, if_pos h]

/-- The sign of the day count: negative exactly from one whole day before. -/
theorem daysOf_sign (d : Int) (hmin : minDuration ≤ d) (hmax : d ≤ maxDuration) :
    (0 ≤ daysOf d ↔ -dayNs < d) := by
  constructor
  · intro h
    by_contra hcon
    have := daysOf_neg d hmin (by omega)
    omega
  · intro h
    by_cases hd : d ≤ 0
    · rw [daysOf_zero d hd h]
    · have h1 := daysOf_ge d (by omega) hmax
      have h2 : 0 ≤ d / dayNs := Int.ediv_nonneg (by omega) (by unfold dayNs Hour; norm_num)
      omega

theorem custom_zero_eval (L : Lib) (now : Time) (todo : Todo) (h : todo.Repeat = "custom")
    (h0 : todo.Interval = 0) :
    isRepeatingTaskDueToday L now todo =
      if now.ns - todo.Date.ns ≤ -dayNs then some false else none := by
  rw [custom_eval L now todo h]
  have hr := Sub_range now todo.Date
  have hs := daysOf_sign (now.Sub todo.Date) hr.1 hr.2
  by_cases hb : now.ns - todo.Date.ns ≤ -dayNs
  · have : ¬ 0 ≤ daysOf (now.Sub todo.Date) := by
      rw [hs]
      have := Sub_le now todo.Date hb
      omega
    rw [if_neg this, if_pos hb]
  · have : 0 ≤ daysOf (now.Sub todo.Date) := by
      rw [hs]
      exact Sub_gt now todo.Date (by omega)
    rw [if_pos this, if_pos h0, if_neg hb]

/-- C2, as the code has it.  For a task of recurrence "custom" with interval 0,
`isRepeatingTaskDueToday` returns false when the reference instant lies 24 hours or more
before the instant of the task, and faults (the remainder is taken with divisor zero) when
the reference instant is the instant of the task or a later one. -/
theorem custom_zero_interval (L : Lib) (now : Time) (todo : Todo)
    (h : todo.Repeat = "custom") (h0 : todo.Interval = 0) :
    (now.ns - todo.Date.ns ≤ -dayNs → isRepeatingTaskDueToday L now todo = some false) ∧
    (0 ≤ now.ns - todo.Date.ns → isRepeatingTaskDueToday L now todo = none) := by
  have hday : (0 : Int) < dayNs := by decide
  constructor
  · intro hb
    rw [custom_zero_eval L now todo h h0, if_pos hb]
  · intro ha
    rw [custom_zero_eval L now todo h h0, if_neg (by omega)]

theorem custom_zero_interval_witness :
    isRepeatingTaskDueToday stdLib ⟨1709251200000000000, 0⟩
        ⟨1, "x", ⟨1709510400000000000, 0⟩, "custom", 0, []⟩ = some false ∧
      isRepeatingTaskDueToday stdLib ⟨1709510400000000000, 0⟩
        ⟨1, "x", ⟨1709251200000000000, 0⟩, "custom", 0, []⟩ = none :=
  ⟨(custom_zero_interval stdLib ⟨1709251200000000000, 0⟩
      ⟨1, "x", ⟨1709510400000000000, 0⟩, "custom", 0, []⟩ rfl rfl).1 (by decide),
    (custom_zero_interval stdLib ⟨1709510400000000000, 0⟩
      ⟨1, "x", ⟨1709251200000000000, 0⟩, "custom", 0, []⟩ rfl rfl).2 (by decide)⟩

/-- C2 fails.  A task of recurrence "custom" with interval 0 and date 2024-03-01 00:00 UTC:
at the instant of the task and three days later the function faults instead of returning
false. -/
theorem zero_interval_faults :
    isRepeatingTaskDueToday stdLib ⟨1709251200000000000, 0⟩
        ⟨1, "x", ⟨1709251200000000000, 0⟩, "custom", 0, []⟩ = none ∧
      isRepeatingTaskDueToday stdLib ⟨1709510400000000000, 0⟩
        ⟨1, "x", ⟨1709251200000000000, 0⟩, "custom", 0, []⟩ = none := by
  refine ⟨?_, ?_⟩ <;>
  · rw [custom_zero_eval _ _ _ rfl rfl]
    decide

end TelegramBot
